import Mathlib

/-!
Verification of the FIRRTL structural type system (circt, FIRRTLTypes.cpp /
FIRRTLTypes.h) against its natural-language specification.

The closed universe of types is embedded as the inductive `FTy`; each C++
algorithm on types (recursive-property computation, the type transformers,
the field-ID addressing, the equivalence and castability decision
procedures) is translated into an executable Lean function over `FTy`.
Interned MLIR type handles compare by their storage keys, so pointer
equality of two type handles coincides with structural equality of the
embedded values; it is modelled by the executable `tyEq`.

Widths are carried as `Int` with the source sentinel -1 for "uninferred"
(the C++ verifier rejects anything below -1).  Field IDs are `uint64_t`
counters that only ever grow by small increments, modelled as `Nat`
(subtractions performed by the source are shown never to underflow on the
inputs the algorithms produce, so `Nat` subtraction agrees).

The generic dispatchers `type_isa` / `type_cast` / `type_dyn_cast` and
`FIRRTLTypeSwitch` (FIRRTLTypes.h) look through `BaseTypeAliasType`
wrappers; the embedding reproduces this by dispatching on `unalias` or by
explicit alias equations, exactly where the source dispatch does so.
-/

namespace Firrtl

/-- The closed set of FIRRTL type variants (FIRRTLTypes.h registerTypes):
ground types carrying a const flag (integers and analog also carry a width
with -1 meaning uninferred), the aggregate base types (bundle elements are
name-flip-type triples, enum elements are name-type pairs), the base type
alias, the reference type, the open aggregates, and the non-hardware
property types String and BigInt. -/
inductive FTy : Type where
  | clock (isConst : Bool)
  | reset (isConst : Bool)
  | asyncReset (isConst : Bool)
  | sint (width : Int) (isConst : Bool)
  | uint (width : Int) (isConst : Bool)
  | analog (width : Int) (isConst : Bool)
  | bundle (elements : List (String × Bool × FTy)) (isConst : Bool)
  | vector (elementType : FTy) (numElements : Nat) (isConst : Bool)
  | fenum (elements : List (String × FTy)) (isConst : Bool)
  | alias (name : String) (inner : FTy)
  | ref (inner : FTy) (forceable : Bool)
  | openBundle (elements : List (String × Bool × FTy)) (isConst : Bool)
  | openVector (elementType : FTy) (numElements : Nat) (isConst : Bool)
  | stringTy
  | bigIntTy

instance : Inhabited FTy := ⟨FTy.clock false⟩

mutual
/-- Structural equality of embedded types.  Two interned type handles are
pointer-equal iff their storage keys are equal componentwise, which for the
embedding is structural equality of the `FTy` values. -/
def tyEq : FTy → FTy → Bool
  | .clock c, b => match b with
    | .clock c2 => c == c2
    | _ => false
  | .reset c, b => match b with
    | .reset c2 => c == c2
    | _ => false
  | .asyncReset c, b => match b with
    | .asyncReset c2 => c == c2
    | _ => false
  | .sint w c, b => match b with
    | .sint w2 c2 => w == w2 && c == c2
    | _ => false
  | .uint w c, b => match b with
    | .uint w2 c2 => w == w2 && c == c2
    | _ => false
  | .analog w c, b => match b with
    | .analog w2 c2 => w == w2 && c == c2
    | _ => false
  | .bundle e c, b => match b with
    | .bundle e2 c2 => tyEqBElts e e2 && c == c2
    | _ => false
  | .vector t n c, b => match b with
    | .vector t2 n2 c2 => tyEq t t2 && n == n2 && c == c2
    | _ => false
  | .fenum e c, b => match b with
    | .fenum e2 c2 => tyEqEElts e e2 && c == c2
    | _ => false
  | .alias nm t, b => match b with
    | .alias nm2 t2 => nm == nm2 && tyEq t t2
    | _ => false
  | .ref t f, b => match b with
    | .ref t2 f2 => tyEq t t2 && f == f2
    | _ => false
  | .openBundle e c, b => match b with
    | .openBundle e2 c2 => tyEqBElts e e2 && c == c2
    | _ => false
  | .openVector t n c, b => match b with
    | .openVector t2 n2 c2 => tyEq t t2 && n == n2 && c == c2
    | _ => false
  | .stringTy, b => match b with
    | .stringTy => true
    | _ => false
  | .bigIntTy, b => match b with
    | .bigIntTy => true
    | _ => false

/-- Componentwise equality of bundle element lists. -/
def tyEqBElts : List (String × Bool × FTy) → List (String × Bool × FTy) → Bool
  | [], [] => true
  | (n, f, t) :: r, (n2, f2, t2) :: r2 =>
      n == n2 && f == f2 && tyEq t t2 && tyEqBElts r r2
  | _, _ => false

/-- Componentwise equality of enum element lists. -/
def tyEqEElts : List (String × FTy) → List (String × FTy) → Bool
  | [], [] => true
  | (n, t) :: r, (n2, t2) :: r2 => n == n2 && tyEq t t2 && tyEqEElts r r2
  | _, _ => false
end

/-- Strip `BaseTypeAliasType` wrappers, as the alias-transparent
`type_cast` dispatch of FIRRTLTypes.h does. -/
def unalias : FTy → FTy
  | .alias _ inner => unalias inner
  | t => t

/-- FIRRTLBaseType::classof: every variant in the FIRRTL dialect except
properties, references and open aggregates; a type alias is itself a base
type. -/
def isBaseTy : FTy → Bool
  | .ref _ _ | .openBundle _ _ | .openVector _ _ _ | .stringTy | .bigIntTy => false
  | _ => true

/-- FIRRTLType::isConst / FIRRTLBaseType::isConst: the storage const flag;
an alias stores its inner const flag; non-base types other than the open
aggregates answer false. -/
def isConstTy : FTy → Bool
  | .clock c | .reset c | .asyncReset c => c
  | .sint _ c | .uint _ c | .analog _ c => c
  | .bundle _ c | .vector _ _ c | .fenum _ c => c
  | .alias _ inner => isConstTy inner
  | .openBundle _ c | .openVector _ _ c => c
  | .ref _ _ | .stringTy | .bigIntTy => false

/-- Stripping aliases never grows a type; used for the termination
measures of the alias-transparent algorithms. -/
theorem sizeOf_unalias_le : ∀ t : FTy, sizeOf (unalias t) ≤ sizeOf t
  | .alias _ inner => by
      have ih := sizeOf_unalias_le inner
      simp only [unalias]
      simp
      omega
  | .clock _ => by simp [unalias]
  | .reset _ => by simp [unalias]
  | .asyncReset _ => by simp [unalias]
  | .sint _ _ => by simp [unalias]
  | .uint _ _ => by simp [unalias]
  | .analog _ _ => by simp [unalias]
  | .bundle _ _ => by simp [unalias]
  | .vector _ _ _ => by simp [unalias]
  | .fenum _ _ => by simp [unalias]
  | .ref _ _ => by simp [unalias]
  | .openBundle _ _ => by simp [unalias]
  | .openVector _ _ _ => by simp [unalias]
  | .stringTy => by simp [unalias]
  | .bigIntTy => by simp [unalias]

/-- RecursiveTypeProperties (FIRRTLTypes.h): the cached whole-subtree bits,
fields in source declaration order. -/
structure RTP : Type where
  isPassive : Bool
  containsReference : Bool
  containsAnalog : Bool
  containsConst : Bool
  containsTypeAlias : Bool
  hasUninferredWidth : Bool
  hasUninferredReset : Bool
deriving DecidableEq, Repr

mutual
/-- getRecursiveTypeProperties: the property bitset each storage
constructor computes bottom-up (FIRRTLType::getRecursiveTypeProperties for
grounds; BundleTypeStorage, FVectorTypeStorage, FEnumTypeStorage,
OpenBundleTypeStorage, OpenVectorTypeStorage constructors;
BaseTypeAliasType::getRecursiveTypeProperties;
RefType::getRecursiveTypeProperties). -/
def getRecursiveTypeProperties : FTy → RTP
  | .clock c => ⟨true, false, false, c, false, false, false⟩
  | .reset c => ⟨true, false, false, c, false, false, true⟩
  | .asyncReset c => ⟨true, false, false, c, false, false, false⟩
  | .sint w c => ⟨true, false, false, c, false, decide (w < 0), false⟩
  | .uint w c => ⟨true, false, false, c, false, decide (w < 0), false⟩
  | .analog w c => ⟨true, false, true, c, false, decide (w < 0), false⟩
  | .bundle elts c => rtpBundleElts elts ⟨true, false, false, c, false, false, false⟩
  | .vector t _ c =>
      let p := getRecursiveTypeProperties t
      ⟨p.isPassive, p.containsReference, p.containsAnalog, p.containsConst || c,
       p.containsTypeAlias, p.hasUninferredWidth, p.hasUninferredReset⟩
  | .fenum elts c => rtpEnumElts elts ⟨true, false, false, c, false, false, false⟩
  | .alias _ inner =>
      let p := getRecursiveTypeProperties inner
      ⟨p.isPassive, p.containsReference, p.containsAnalog, p.containsConst,
       true, p.hasUninferredWidth, p.hasUninferredReset⟩
  | .ref inner _ =>
      let p := getRecursiveTypeProperties inner
      ⟨false, true, p.containsAnalog, p.containsConst,
       p.containsTypeAlias, p.hasUninferredWidth, p.hasUninferredReset⟩
  | .openBundle elts c => rtpBundleElts elts ⟨true, false, false, c, false, false, false⟩
  | .openVector t _ c =>
      let p := getRecursiveTypeProperties t
      ⟨p.isPassive, p.containsReference, p.containsAnalog, p.containsConst || c,
       p.containsTypeAlias, p.hasUninferredWidth, p.hasUninferredReset⟩
  | .stringTy => ⟨true, false, false, false, false, false, false⟩
  | .bigIntTy => ⟨true, false, false, false, false, false, false⟩

/-- The element loop of BundleTypeStorage / OpenBundleTypeStorage:
AND-fold isPassive with each element being non-flipped and passive,
OR-fold every other bit. -/
def rtpBundleElts : List (String × Bool × FTy) → RTP → RTP
  | [], acc => acc
  | (_, f, t) :: rest, acc =>
      let e := getRecursiveTypeProperties t
      rtpBundleElts rest
        ⟨acc.isPassive && (e.isPassive && !f),
         acc.containsReference || e.containsReference,
         acc.containsAnalog || e.containsAnalog,
         acc.containsConst || e.containsConst,
         acc.containsTypeAlias || e.containsTypeAlias,
         acc.hasUninferredWidth || e.hasUninferredWidth,
         acc.hasUninferredReset || e.hasUninferredReset⟩

/-- The element loop of FEnumTypeStorage: it AND-folds isPassive and
OR-folds containsAnalog, containsConst, hasUninferredWidth and
containsTypeAlias, but it does not fold containsReference or
hasUninferredReset of the elements. -/
def rtpEnumElts : List (String × FTy) → RTP → RTP
  | [], acc => acc
  | (_, t) :: rest, acc =>
      let e := getRecursiveTypeProperties t
      rtpEnumElts rest
        ⟨acc.isPassive && e.isPassive,
         acc.containsReference,
         acc.containsAnalog || e.containsAnalog,
         acc.containsConst || e.containsConst,
         acc.containsTypeAlias || e.containsTypeAlias,
         acc.hasUninferredWidth || e.hasUninferredWidth,
         acc.hasUninferredReset⟩
end

/-- FIRRTLBaseType::isPassive: read off the cached property bitset. -/
def isPassive (t : FTy) : Bool := (getRecursiveTypeProperties t).isPassive

/-- FIRRTLType::containsConst. -/
def containsConst (t : FTy) : Bool := (getRecursiveTypeProperties t).containsConst

/-- FIRRTLType::containsTypeAlias. -/
def containsTypeAlias (t : FTy) : Bool :=
  (getRecursiveTypeProperties t).containsTypeAlias

mutual
/-- FIRRTLBaseType::getWidthlessType: grounds keep their const flag and
lose their width (sentinel -1), aggregates are rebuilt elementwise.  The
FIRRTLTypeSwitch dispatch hands each case the alias-stripped value and the
rebuilt results are plain types, so an alias reduces to the widthless form
of its inner type.  Non-base variants are unreachable in the source
(llvm_unreachable default) and are left fixed. -/
def getWidthlessType : FTy → FTy
  | .clock c => .clock c
  | .reset c => .reset c
  | .asyncReset c => .asyncReset c
  | .sint _ c => .sint (-1) c
  | .uint _ c => .uint (-1) c
  | .analog _ c => .analog (-1) c
  | .bundle elts c => .bundle (widthlessBElts elts) c
  | .vector t n c => .vector (getWidthlessType t) n c
  | .fenum elts c => .fenum (widthlessEElts elts) c
  | .alias _ inner => getWidthlessType inner
  | t => t

/-- The bundle element rebuild loop of getWidthlessType (name and flip
kept). -/
def widthlessBElts : List (String × Bool × FTy) → List (String × Bool × FTy)
  | [] => []
  | (n, f, t) :: rest => (n, f, getWidthlessType t) :: widthlessBElts rest

/-- The enum element rebuild loop of getWidthlessType (name kept). -/
def widthlessEElts : List (String × FTy) → List (String × FTy)
  | [] => []
  | (n, t) :: rest => (n, getWidthlessType t) :: widthlessEElts rest
end

/-- FIRRTLBaseType::getConstType: set the const flag at the root.  The
FIRRTLTypeSwitch cases receive the alias-stripped value (an alias of a
ground or aggregate matches that case before the dead BaseTypeAliasType
case), so the result is the unaliased type with the requested root const
flag.  Non-base variants are unreachable in the source and left fixed. -/
def getConstType (t : FTy) (c : Bool) : FTy :=
  match unalias t with
  | .clock _ => .clock c
  | .reset _ => .reset c
  | .asyncReset _ => .asyncReset c
  | .sint w _ => .sint w c
  | .uint w _ => .uint w c
  | .analog w _ => .analog w c
  | .bundle elts _ => .bundle elts c
  | .vector e n _ => .vector e n c
  | .fenum elts _ => .fenum elts c
  | _ => t

/-- FIRRTLBaseType::getBitWidthOrSentinel: 1 for the one-bit sugar types,
the stored width for integers and analog, -2 for aggregates; alias
transparent via the FIRRTLTypeSwitch dispatch. -/
def getBitWidthOrSentinel (t : FTy) : Int :=
  match unalias t with
  | .clock _ | .reset _ | .asyncReset _ => 1
  | .sint w _ | .uint w _ | .analog w _ => w
  | .bundle _ _ | .vector _ _ _ | .fenum _ _ => -2
  | _ => -2

/-- FIRRTLBaseType::isResetType: abstract Reset, AsyncReset, or a UInt
that is width-uninferred or exactly one bit wide; a base type alias
forwards to its inner type; everything else is not a reset type. -/
def isResetType : FTy → Bool
  | .reset _ => true
  | .asyncReset _ => true
  | .uint w _ => decide (w < 0) || decide (w = 1)
  | .alias _ inner => isResetType inner
  | _ => false

mutual
/-- FIRRTLBaseType::getPassiveType.  Ground types and enums return the
receiver unchanged (the first FIRRTLTypeSwitch case matches FEnumType
before the aggregate list does, and the lambda returns the receiver, alias
wrapper included).  A bundle or vector — alias-stripped by the dispatch —
returns itself if its cached properties say it is already passive and is
otherwise rebuilt with every flip cleared and passive element types
(BundleType::getPassiveType, FVectorType::getPassiveType; the vector tests
its element passivity).  Non-base variants are unreachable and left
fixed. -/
def getPassiveType (t : FTy) : FTy :=
  match _h : unalias t with
  | .bundle elts c =>
      if (getRecursiveTypeProperties (.bundle elts c)).isPassive then .bundle elts c
      else .bundle (passiveBElts elts) c
  | .vector e n c =>
      if (getRecursiveTypeProperties e).isPassive then .vector e n c
      else .vector (getPassiveType e) n c
  | _ => t
termination_by sizeOf t
decreasing_by
  all_goals
    have hle := sizeOf_unalias_le t
    rw [_h] at hle
    simp at hle ⊢
    omega

/-- The rebuild loop of BundleType::getPassiveType: clear each flip and
take the passive form of each element type. -/
def passiveBElts : List (String × Bool × FTy) → List (String × Bool × FTy)
  | [] => []
  | (n, _, t) :: rest => (n, false, getPassiveType t) :: passiveBElts rest
termination_by l => sizeOf l
end

mutual
/-- FIRRTLBaseType::getAllConstDroppedType: grounds take their non-const
form; bundles, vectors and enums — alias-stripped by the dispatch — return
themselves when containsConst is false and are otherwise rebuilt with
const dropped everywhere and a non-const root (BundleType /
FVectorType / FEnumType getAllConstDroppedType).  Non-base variants are
unreachable and left fixed. -/
def getAllConstDroppedType (t : FTy) : FTy :=
  match _h : unalias t with
  | .clock _ => .clock false
  | .reset _ => .reset false
  | .asyncReset _ => .asyncReset false
  | .sint w _ => .sint w false
  | .uint w _ => .uint w false
  | .analog w _ => .analog w false
  | .bundle elts c =>
      if !(getRecursiveTypeProperties (.bundle elts c)).containsConst then .bundle elts c
      else .bundle (acdBElts elts) false
  | .vector e n c =>
      if !(getRecursiveTypeProperties (.vector e n c)).containsConst then .vector e n c
      else .vector (getAllConstDroppedType e) n false
  | .fenum elts c =>
      if !(getRecursiveTypeProperties (.fenum elts c)).containsConst then .fenum elts c
      else .fenum (acdEElts elts) false
  | _ => t
termination_by sizeOf t
decreasing_by
  all_goals
    have hle := sizeOf_unalias_le t
    rw [_h] at hle
    simp at hle ⊢
    omega

/-- The rebuild loop of BundleType::getAllConstDroppedType (name and flip
kept). -/
def acdBElts : List (String × Bool × FTy) → List (String × Bool × FTy)
  | [] => []
  | (n, f, t) :: rest => (n, f, getAllConstDroppedType t) :: acdBElts rest
termination_by l => sizeOf l

/-- The rebuild loop of FEnumType::getAllConstDroppedType (name kept). -/
def acdEElts : List (String × FTy) → List (String × FTy)
  | [] => []
  | (n, t) :: rest => (n, getAllConstDroppedType t) :: acdEElts rest
termination_by l => sizeOf l
end

mutual
/-- FIRRTLBaseType::getAnonymousType.  The first FIRRTLTypeSwitch case
(the six ground kinds) returns the receiver itself — so an alias of a
ground type is returned with its alias wrapper intact.  A bundle, vector
or enum — alias-stripped by the dispatch — returns itself when its cached
containsTypeAlias bit is clear and is otherwise rebuilt from the
getAnonymousType of its elements; the bundle and vector rebuilds pass
isConst() through, but the enum rebuild calls FEnumType::get without the
isConst argument, whose default is false (FEnumType::getAnonymousType).
Non-base variants are unreachable and left fixed. -/
def getAnonymousType (t : FTy) : FTy :=
  match _h : unalias t with
  | .bundle elts c =>
      if !(getRecursiveTypeProperties (.bundle elts c)).containsTypeAlias then
        .bundle elts c
      else .bundle (anonBElts elts) c
  | .vector e n c =>
      if !(getRecursiveTypeProperties (.vector e n c)).containsTypeAlias then
        .vector e n c
      else .vector (getAnonymousType e) n c
  | .fenum elts c =>
      if !(getRecursiveTypeProperties (.fenum elts c)).containsTypeAlias then
        .fenum elts c
      else .fenum (anonEElts elts) false
  | _ => t
termination_by sizeOf t
decreasing_by
  all_goals
    have hle := sizeOf_unalias_le t
    rw [_h] at hle
    simp at hle ⊢
    omega

/-- The rebuild loop of BundleType::getAnonymousType (name and flip
kept). -/
def anonBElts : List (String × Bool × FTy) → List (String × Bool × FTy)
  | [] => []
  | (n, f, t) :: rest => (n, f, getAnonymousType t) :: anonBElts rest
termination_by l => sizeOf l

/-- The rebuild loop of FEnumType::getAnonymousType (name kept). -/
def anonEElts : List (String × FTy) → List (String × FTy)
  | [] => []
  | (n, t) :: rest => (n, getAnonymousType t) :: anonEElts rest
termination_by l => sizeOf l
end

mutual
/-- FIRRTLBaseType::getMaskType: each ground leaf becomes a one-bit UInt
carrying the receiver const flag; bundles are rebuilt with every element
flip set to false (the literal `false` with a FIXME comment in the source)
and vectors keep their length; the switch has no case for FEnumType or for
any non-base variant, so those reach the llvm_unreachable default —
modelled as `none`. -/
def getMaskType : FTy → Option FTy
  | .clock c => some (.uint 1 c)
  | .reset c => some (.uint 1 c)
  | .asyncReset c => some (.uint 1 c)
  | .sint _ c => some (.uint 1 c)
  | .uint _ c => some (.uint 1 c)
  | .analog _ c => some (.uint 1 c)
  | .bundle elts c =>
      match maskBElts elts with
      | some es => some (.bundle es c)
      | none => none
  | .vector e n c =>
      match getMaskType e with
      | some m => some (.vector m n c)
      | none => none
  | .alias _ inner => getMaskType inner
  | _ => none

/-- The bundle element loop of getMaskType: the flip flag is replaced by
false. -/
def maskBElts : List (String × Bool × FTy) → Option (List (String × Bool × FTy))
  | [] => some []
  | (n, _, t) :: rest =>
      match getMaskType t, maskBElts rest with
      | some m, some ms => some ((n, false, m) :: ms)
      | _, _ => none
end

mutual
/-- getMaxFieldID: 0 for grounds and references; a bundle or enum runs the
storage constructor accumulation loop (one ID per element plus the
subtree of each element); a vector or open vector multiplies the element
stride; an alias forwards to the type it wraps (via the alias-transparent
dispatch).  The property kinds are unreachable here and answer 0. -/
def getMaxFieldID : FTy → Nat
  | .bundle elts _ => bundleMaxAux elts 0
  | .vector e n _ => n * (getMaxFieldID e + 1)
  | .fenum elts _ => enumMaxAux elts 0
  | .alias _ inner => getMaxFieldID inner
  | .openBundle elts _ => bundleMaxAux elts 0
  | .openVector e n _ => n * (getMaxFieldID e + 1)
  | _ => 0

/-- The accumulation loop of the bundle storage constructors: fieldID is
bumped by one for the element itself and then by the size of the element
subtree. -/
def bundleMaxAux : List (String × Bool × FTy) → Nat → Nat
  | [], acc => acc
  | (_, _, t) :: rest, acc => bundleMaxAux rest (acc + 1 + getMaxFieldID t)

/-- The accumulation loop of FEnumTypeStorage. -/
def enumMaxAux : List (String × FTy) → Nat → Nat
  | [], acc => acc
  | (_, t) :: rest, acc => enumMaxAux rest (acc + 1 + getMaxFieldID t)
end

/-- The fieldIDs table a bundle or open bundle storage precomputes: the
ID handed to each element in order. -/
def bundleFieldIDList : List (String × Bool × FTy) → Nat → List Nat
  | [], _ => []
  | (_, _, t) :: rest, acc => (acc + 1) :: bundleFieldIDList rest (acc + 1 + getMaxFieldID t)

/-- The fieldIDs table an enum storage precomputes. -/
def enumFieldIDList : List (String × FTy) → Nat → List Nat
  | [], _ => []
  | (_, t) :: rest, acc => (acc + 1) :: enumFieldIDList rest (acc + 1 + getMaxFieldID t)

/-- getIndexForFieldID of the table-based aggregates:
std::prev(llvm::upper_bound(fieldIDs, fieldID)) on the strictly increasing
table, i.e. the position of the last entry at most fieldID — the number of
entries at most fieldID, minus one. -/
def indexForFieldID (ids : List Nat) (fieldID : Nat) : Nat :=
  ids.countP (fun i => decide (i ≤ fieldID)) - 1

/-- getFieldID(index): bundles, enums and open bundles read the
precomputed table; vectors and open vectors compute
1 + index * (maxFieldID(element) + 1). -/
def getFieldID : FTy → Nat → Nat
  | .bundle elts _, i => (bundleFieldIDList elts 0).getD i 0
  | .fenum elts _, i => (enumFieldIDList elts 0).getD i 0
  | .openBundle elts _, i => (bundleFieldIDList elts 0).getD i 0
  | .vector e _ _, i => 1 + i * (getMaxFieldID e + 1)
  | .openVector e _ _, i => 1 + i * (getMaxFieldID e + 1)
  | .alias _ inner, i => getFieldID inner i
  | _, _ => 0

/-- Element type of a bundle-shaped element list by index. -/
def bundleEltTy (elts : List (String × Bool × FTy)) (i : Nat) : FTy :=
  (elts.getD i ("", false, default)).2.2

/-- Element type of an enum element list by index. -/
def enumEltTy (elts : List (String × FTy)) (i : Nat) : FTy :=
  (elts.getD i ("", default)).2

/-- getSubTypeByFieldID: ID 0 answers the type itself with residue 0.
For a nonzero ID, bundles, enums and open bundles locate the element by
the precomputed table and rebase the ID on it; FVectorType uses
getIndexAndSubfieldID, i.e. rebases on the located element; but
OpenVectorType::getSubTypeByFieldID returns getIndexForFieldID(fieldID) —
the element index — as the second component instead of the rebased ID.
Ground types and references answer the receiver with 0 (their asserts
require fieldID 0); an alias forwards to its inner type. -/
def getSubTypeByFieldID : FTy → Nat → FTy × Nat
  | .bundle elts c, fieldID =>
      if fieldID = 0 then (.bundle elts c, 0)
      else
        let ids := bundleFieldIDList elts 0
        let idx := indexForFieldID ids fieldID
        (bundleEltTy elts idx, fieldID - ids.getD idx 0)
  | .fenum elts c, fieldID =>
      if fieldID = 0 then (.fenum elts c, 0)
      else
        let ids := enumFieldIDList elts 0
        let idx := indexForFieldID ids fieldID
        (enumEltTy elts idx, fieldID - ids.getD idx 0)
  | .openBundle elts c, fieldID =>
      if fieldID = 0 then (.openBundle elts c, 0)
      else
        let ids := bundleFieldIDList elts 0
        let idx := indexForFieldID ids fieldID
        (bundleEltTy elts idx, fieldID - ids.getD idx 0)
  | .vector e n c, fieldID =>
      if fieldID = 0 then (.vector e n c, 0)
      else
        let stride := getMaxFieldID e + 1
        (e, fieldID - (1 + ((fieldID - 1) / stride) * stride))
  | .openVector e n c, fieldID =>
      if fieldID = 0 then (.openVector e n c, 0)
      else (e, (fieldID - 1) / (getMaxFieldID e + 1))
  | .alias _ inner, fieldID => getSubTypeByFieldID inner fieldID
  | t, _ => (t, 0)

/-- type_isa of ResetType (the abstract reset variant); the dispatch is
alias-transparent. -/
def isResetVariant (t : FTy) : Bool :=
  match unalias t with
  | .reset _ => true
  | _ => false

/-- type_dyn_cast of FVectorType: the element type, length and const flag
when the (alias-stripped) type is a vector. -/
def asVector (t : FTy) : Option (FTy × Nat × Bool) :=
  match unalias t with
  | .vector e n c => some (e, n, c)
  | _ => none

/-- type_dyn_cast of BundleType: the elements and const flag when the
(alias-stripped) type is a bundle. -/
def asBundle (t : FTy) : Option (List (String × Bool × FTy) × Bool) :=
  match unalias t with
  | .bundle elts c => some (elts, c)
  | _ => none

/-- type_dyn_cast of FEnumType. -/
def asEnum (t : FTy) : Option (List (String × FTy) × Bool) :=
  match unalias t with
  | .fenum elts c => some (elts, c)
  | _ => none

/-- A successful vector cast yields a strictly smaller element type. -/
theorem asVector_sizeOf {t e : FTy} {n : Nat} {c : Bool}
    (h : asVector t = some (e, n, c)) : sizeOf e < sizeOf t := by
  have hle := sizeOf_unalias_le t
  unfold asVector at h
  cases hu : unalias t <;> rw [hu] at h hle <;> simp at h
  obtain ⟨h1, h2, h3⟩ := h
  subst h1
  simp at hle
  omega

/-- A successful bundle cast yields a strictly smaller element list. -/
theorem asBundle_sizeOf {t : FTy} {elts : List (String × Bool × FTy)} {c : Bool}
    (h : asBundle t = some (elts, c)) : sizeOf elts < sizeOf t := by
  have hle := sizeOf_unalias_le t
  unfold asBundle at h
  cases hu : unalias t <;> rw [hu] at h hle <;> simp at h
  obtain ⟨h1, h2⟩ := h
  subst h1
  simp at hle
  omega

/-- A successful enum cast yields a strictly smaller element list. -/
theorem asEnum_sizeOf {t : FTy} {elts : List (String × FTy)} {c : Bool}
    (h : asEnum t = some (elts, c)) : sizeOf elts < sizeOf t := by
  have hle := sizeOf_unalias_le t
  unfold asEnum at h
  cases hu : unalias t <;> rw [hu] at h hle <;> simp at h
  obtain ⟨h1, h2⟩ := h
  subst h1
  simp at hle
  omega

mutual
/-- firrtl::areTypesEquivalent.  Non-base operands are equivalent only if
identical.  Otherwise the outer const context is folded with each operand
const flag; vectors (recognized by the alias-transparent type_dyn_cast)
need equal length and equivalent elements; bundles need equal arity and
elementwise agreement through areBundleElementsEquivalent (dest and src
roles swapped on a flipped element); enums need equal arity, equal names
in order and element equivalence with requireSameWidths forced to true.
Remaining pairs take the ground path: reject a const dest driven by a
non-const src, unify the abstract Reset with any reset-shaped type in
either direction, then compare const-stripped — widthless unless
requireSameWidths holds and the width is inferred — forms for
identity. -/
def areTypesEquivalent (dest src : FTy) (destOuter srcOuter w : Bool) : Bool :=
  if !(isBaseTy dest && isBaseTy src) then tyEq dest src
  else
    let dC := destOuter || isConstTy dest
    let sC := srcOuter || isConstTy src
    match _hdv : asVector dest, _hsv : asVector src with
    | some (de, dn, _), some (se, sn, _) =>
        decide (dn = sn) && areTypesEquivalent de se dC sC w
    | _, _ =>
      match _hdb : asBundle dest, _hsb : asBundle src with
      | some (dE, _), some (sE, _) =>
          decide (dE.length = sE.length) && bundleEltsEquivalent dE sE dC sC w
      | _, _ =>
        match _hde : asEnum dest, _hse : asEnum src with
        | some (dE, _), some (sE, _) =>
            decide (dE.length = sE.length) && enumEltsEquivalent dE sE dC sC
        | _, _ =>
          if dC && !sC then false
          else if isResetVariant dest then isResetType src
          else if isResetVariant src then isResetType dest
          else
            let s1 := if !w || decide (getBitWidthOrSentinel dest = -1) then
                        getWidthlessType src
                      else src
            let d1 := if !w || decide (getBitWidthOrSentinel s1 = -1) then
                        getWidthlessType dest
                      else dest
            tyEq (getConstType d1 false) (getConstType s1 false)
termination_by sizeOf dest + sizeOf src
decreasing_by
  · have h1 := asVector_sizeOf _hdv
    have h2 := asVector_sizeOf _hsv
    omega
  · have h1 := asBundle_sizeOf _hdb
    have h2 := asBundle_sizeOf _hsb
    omega
  · have h1 := asEnum_sizeOf _hde
    have h2 := asEnum_sizeOf _hse
    omega

/-- The element loop of the bundle case of areTypesEquivalent, each pair
checked by areBundleElementsEquivalent: equal names, equal flip flags,
and — with dest and src together with their const contexts swapped on a
flipped element — recursive equivalence.  The source guards the loop by
the arity check, so unequal tails are never reached. -/
def bundleEltsEquivalent :
    List (String × Bool × FTy) → List (String × Bool × FTy) →
    Bool → Bool → Bool → Bool
  | [], [], _, _, _ => true
  | (dn, df, dt) :: dr, (sn, sf, st) :: sr, dC, sC, w =>
      decide (dn = sn) && decide (df = sf) &&
      (if df then areTypesEquivalent st dt sC dC w
       else areTypesEquivalent dt st dC sC w) &&
      bundleEltsEquivalent dr sr dC sC w
  | _, _, _, _, _ => false
termination_by dl sl _ _ _ => sizeOf dl + sizeOf sl

/-- The element loop of the enum case of areTypesEquivalent: equal
variant names and element equivalence with requireSameWidths forced to
true. -/
def enumEltsEquivalent :
    List (String × FTy) → List (String × FTy) → Bool → Bool → Bool
  | [], [], _, _ => true
  | (dn, dt) :: dr, (sn, st) :: sr, dC, sC =>
      decide (dn = sn) && areTypesEquivalent dt st dC sC true &&
      enumEltsEquivalent dr sr dC sC
  | _, _, _, _ => false
termination_by dl sl _ _ => sizeOf dl + sizeOf sl
end

mutual
/-- firrtl::areTypesWeaklyEquivalent.  Non-base operands must be
identical.  Vectors recurse on their elements regardless of length,
passing the accumulated const context (dC, sC).  Bundles iterate the dest
elements, skip names missing from src, XOR-accumulate flips — and pass
the ORIGINAL outer const flags (destOuter, srcOuter), not the accumulated
ones, into the recursion.  Ground pairs need equal accumulated flip, the
two flip-directed const checks, reset unification, then
widthless-const-stripped identity. -/
def areTypesWeaklyEquivalent (dest src : FTy) (df sf destOuter srcOuter : Bool) :
    Bool :=
  if !(isBaseTy dest && isBaseTy src) then tyEq dest src
  else
    let dC := destOuter || isConstTy dest
    let sC := srcOuter || isConstTy src
    match _hdv : asVector dest, _hsv : asVector src with
    | some (de, _, _), some (se, _, _) =>
        areTypesWeaklyEquivalent de se df sf dC sC
    | _, _ =>
      match _hdb : asBundle dest, _hsb : asBundle src with
      | some (dE, _), some (sE, _) =>
          weakBundleElts dE sE df sf destOuter srcOuter
      | _, _ =>
        if df != sf then false
        else if df && (sC && !dC) then false
        else if sf && (dC && !sC) then false
        else if isResetVariant dest then isResetType src
        else if isResetVariant src then isResetType dest
        else
          tyEq (getConstType (getWidthlessType dest) false)
               (getConstType (getWidthlessType src) false)
termination_by sizeOf dest + sizeOf src
decreasing_by
  · have h1 := asVector_sizeOf _hdv
    have h2 := asVector_sizeOf _hsv
    omega
  · have h1 := asBundle_sizeOf _hdb
    have h2 := asBundle_sizeOf _hsb
    omega

/-- The dest-element loop of the bundle case of
areTypesWeaklyEquivalent: look the dest name up among the src elements
(getElement scans for the first name match); a missing name is accepted;
a found element recurses with XOR-folded flips and the unchanged outer
const flags. -/
def weakBundleElts :
    List (String × Bool × FTy) → List (String × Bool × FTy) →
    Bool → Bool → Bool → Bool → Bool
  | [], _, _, _, _, _ => true
  | (dn, dflip, dt) :: dr, sE, df, sf, destOuter, srcOuter =>
      (match _hf : sE.find? (fun e => e.1 == dn) with
       | none => true
       | some (_, sflip, st) =>
          areTypesWeaklyEquivalent dt st (df ^^ dflip) (sf ^^ sflip)
            destOuter srcOuter) &&
      weakBundleElts dr sE df sf destOuter srcOuter
termination_by dl sl _ _ _ _ => sizeOf dl + sizeOf sl
decreasing_by
  · have hmem := List.mem_of_find?_eq_some _hf
    have hlt := List.sizeOf_lt_of_mem hmem
    simp at hlt ⊢
    omega
  · simp
end

mutual
/-- firrtl::areTypesConstCastable.  Identical types are always castable;
non-base or non-passive operands are otherwise rejected; a const dest
cannot be fed from a source that is neither const nor in a const outer
context.  Vectors need equal length and castable elements, and a vector
paired with a non-vector fails (destVectorType != srcVectorType); bundles
likewise with equal arity and names.  Remaining ground pairs are castable
iff dest equals src with the dest const flag imposed.  The aggregate
dispatch is alias-transparent, but the identity checks compare the raw
operands. -/
def areTypesConstCastable (dest src : FTy) (srcOuter : Bool) : Bool :=
  if tyEq dest src then true
  else if !(isBaseTy dest && isBaseTy src) then false
  else if !(isPassive dest && isPassive src) then false
  else
    let sC := isConstTy src || srcOuter
    if isConstTy dest && !sC then false
    else
      match _hdv : asVector dest, _hsv : asVector src with
      | some (de, dn, _), some (se, sn, _) =>
          decide (dn = sn) && areTypesConstCastable de se sC
      | none, none =>
        (match _hdb : asBundle dest, _hsb : asBundle src with
         | some (dE, _), some (sE, _) =>
             decide (dE.length = sE.length) && ccBElts dE sE sC
         | none, none => tyEq dest (getConstType src (isConstTy dest))
         | _, _ => false)
      | _, _ => false
termination_by sizeOf dest + sizeOf src
decreasing_by
  · have h1 := asVector_sizeOf _hdv
    have h2 := asVector_sizeOf _hsv
    omega
  · have h1 := asBundle_sizeOf _hdb
    have h2 := asBundle_sizeOf _hsb
    omega

/-- The all_of_zip loop of the bundle case of areTypesConstCastable:
equal names and recursively castable element types (flips are irrelevant,
both sides being passive). -/
def ccBElts :
    List (String × Bool × FTy) → List (String × Bool × FTy) → Bool → Bool
  | [], [], _ => true
  | (dn, _, dt) :: dr, (sn, _, st) :: sr, sC =>
      decide (dn = sn) && areTypesConstCastable dt st sC && ccBElts dr sr sC
  | _, _, _ => false
termination_by dl sl _ => sizeOf dl + sizeOf sl
end

/-! Auxiliary lemmas about the embedding. -/

/-- Strong induction on the size of a type; the workhorse for proofs about
the recursive algorithms. -/
theorem fty_size_ind {P : FTy → Prop}
    (step : ∀ t : FTy, (∀ s : FTy, sizeOf s < sizeOf t → P s) → P t) :
    ∀ t, P t := by
  have key : ∀ n : Nat, ∀ t : FTy, sizeOf t < n → P t := by
    intro n
    induction n with
    | zero => intro t ht; omega
    | succ m ih => exact fun t _ => step t (fun s hs => ih s (by omega))
  exact fun t => key (sizeOf t + 1) t (by omega)

mutual
theorem tyEq_refl : ∀ t : FTy, tyEq t t = true
  | .clock _ => by simp [tyEq]
  | .reset _ => by simp [tyEq]
  | .asyncReset _ => by simp [tyEq]
  | .sint _ _ => by simp [tyEq]
  | .uint _ _ => by simp [tyEq]
  | .analog _ _ => by simp [tyEq]
  | .bundle e _ => by simp [tyEq, tyEqBElts_refl e]
  | .vector t _ _ => by simp [tyEq, tyEq_refl t]
  | .fenum e _ => by simp [tyEq, tyEqEElts_refl e]
  | .alias _ t => by simp [tyEq, tyEq_refl t]
  | .ref t _ => by simp [tyEq, tyEq_refl t]
  | .openBundle e _ => by simp [tyEq, tyEqBElts_refl e]
  | .openVector t _ _ => by simp [tyEq, tyEq_refl t]
  | .stringTy => by simp [tyEq]
  | .bigIntTy => by simp [tyEq]

theorem tyEqBElts_refl : ∀ l : List (String × Bool × FTy), tyEqBElts l l = true
  | [] => by simp [tyEqBElts]
  | (_, _, t) :: r => by simp [tyEqBElts, tyEq_refl t, tyEqBElts_refl r]

theorem tyEqEElts_refl : ∀ l : List (String × FTy), tyEqEElts l l = true
  | [] => by simp [tyEqEElts]
  | (_, t) :: r => by simp [tyEqEElts, tyEq_refl t, tyEqEElts_refl r]
end

mutual
theorem tyEq_sound : ∀ a b : FTy, tyEq a b = true → a = b
  | .clock _, b => by cases b <;> simp_all [tyEq]
  | .reset _, b => by cases b <;> simp_all [tyEq]
  | .asyncReset _, b => by cases b <;> simp_all [tyEq]
  | .sint _ _, b => by cases b <;> simp_all [tyEq]
  | .uint _ _, b => by cases b <;> simp_all [tyEq]
  | .analog _ _, b => by cases b <;> simp_all [tyEq]
  | .bundle e _, b => by
      cases b <;> simp_all [tyEq] <;> intros <;>
        exact tyEqBElts_sound e _ (by assumption)
  | .vector t _ _, b => by
      cases b <;> simp_all [tyEq] <;> intros <;>
        exact tyEq_sound t _ (by assumption)
  | .fenum e _, b => by
      cases b <;> simp_all [tyEq] <;> intros <;>
        exact tyEqEElts_sound e _ (by assumption)
  | .alias _ t, b => by
      cases b <;> simp_all [tyEq] <;> intros <;>
        exact tyEq_sound t _ (by assumption)
  | .ref t _, b => by
      cases b <;> simp_all [tyEq] <;> intros <;>
        exact tyEq_sound t _ (by assumption)
  | .openBundle e _, b => by
      cases b <;> simp_all [tyEq] <;> intros <;>
        exact tyEqBElts_sound e _ (by assumption)
  | .openVector t _ _, b => by
      cases b <;> simp_all [tyEq] <;> intros <;>
        exact tyEq_sound t _ (by assumption)
  | .stringTy, b => by cases b <;> simp_all [tyEq]
  | .bigIntTy, b => by cases b <;> simp_all [tyEq]

theorem tyEqBElts_sound :
    ∀ a b : List (String × Bool × FTy), tyEqBElts a b = true → a = b
  | [], b => by cases b <;> simp_all [tyEqBElts]
  | (n, f, t) :: r, b => by
      cases b with
      | nil => simp [tyEqBElts]
      | cons x r2 =>
        obtain ⟨n2, f2, t2⟩ := x
        simp only [tyEqBElts, Bool.and_eq_true, beq_iff_eq]
        rintro ⟨⟨⟨h1, h2⟩, h3⟩, h4⟩
        simp [h1, h2, tyEq_sound t t2 h3, tyEqBElts_sound r r2 h4]

theorem tyEqEElts_sound :
    ∀ a b : List (String × FTy), tyEqEElts a b = true → a = b
  | [], b => by cases b <;> simp_all [tyEqEElts]
  | (n, t) :: r, b => by
      cases b with
      | nil => simp [tyEqEElts]
      | cons x r2 =>
        obtain ⟨n2, t2⟩ := x
        simp only [tyEqEElts, Bool.and_eq_true, beq_iff_eq]
        rintro ⟨⟨h1, h2⟩, h3⟩
        simp [h1, tyEq_sound t t2 h2, tyEqEElts_sound r r2 h3]
end

/-- tyEq decides structural equality. -/
theorem tyEq_iff {a b : FTy} : tyEq a b = true ↔ a = b :=
  ⟨tyEq_sound a b, fun h => h ▸ tyEq_refl a⟩

/-- A type whose alias-stripped form is the abstract Reset is a reset
type. -/
theorem isResetType_of_variant : ∀ t : FTy, isResetVariant t = true → isResetType t = true
  | .reset _ => by simp [isResetType]
  | .alias _ inner => by
      intro h
      simp only [isResetVariant, unalias] at h
      simpa [isResetType] using isResetType_of_variant inner (by simp [isResetVariant, h])
  | .clock _ => by simp [isResetVariant, unalias]
  | .asyncReset _ => by simp [isResetVariant, unalias]
  | .sint _ _ => by simp [isResetVariant, unalias]
  | .uint _ _ => by simp [isResetVariant, unalias]
  | .analog _ _ => by simp [isResetVariant, unalias]
  | .bundle _ _ => by simp [isResetVariant, unalias]
  | .vector _ _ _ => by simp [isResetVariant, unalias]
  | .fenum _ _ => by simp [isResetVariant, unalias]
  | .ref _ _ => by simp [isResetVariant, unalias]
  | .openBundle _ _ => by simp [isResetVariant, unalias]
  | .openVector _ _ _ => by simp [isResetVariant, unalias]
  | .stringTy => by simp [isResetVariant, unalias]
  | .bigIntTy => by simp [isResetVariant, unalias]

/-- A width-uninferred type stays width-uninferred after width
stripping. -/
theorem bw_widthless_of_unknown :
    ∀ t : FTy, getBitWidthOrSentinel t = -1 →
      getBitWidthOrSentinel (getWidthlessType t) = -1
  | .alias _ inner => by
      intro h
      simp only [getBitWidthOrSentinel, unalias] at h ⊢
      have := bw_widthless_of_unknown inner
      simp only [getBitWidthOrSentinel] at this
      simpa [getWidthlessType] using this h
  | .clock _ => by simp [getBitWidthOrSentinel, unalias]
  | .reset _ => by simp [getBitWidthOrSentinel, unalias]
  | .asyncReset _ => by simp [getBitWidthOrSentinel, unalias]
  | .sint w c => by
      intro h
      simp_all [getBitWidthOrSentinel, unalias, getWidthlessType]
  | .uint w c => by
      intro h
      simp_all [getBitWidthOrSentinel, unalias, getWidthlessType]
  | .analog w c => by
      intro h
      simp_all [getBitWidthOrSentinel, unalias, getWidthlessType]
  | .bundle _ _ => by simp [getBitWidthOrSentinel, unalias]
  | .vector _ _ _ => by simp [getBitWidthOrSentinel, unalias]
  | .fenum _ _ => by simp [getBitWidthOrSentinel, unalias]
  | .ref _ _ => by simp [getBitWidthOrSentinel, unalias]
  | .openBundle _ _ => by simp [getBitWidthOrSentinel, unalias]
  | .openVector _ _ _ => by simp [getBitWidthOrSentinel, unalias]
  | .stringTy => by simp [getBitWidthOrSentinel, unalias]
  | .bigIntTy => by simp [getBitWidthOrSentinel, unalias]

/-- The bundle-storage property fold, characterized: AND of element
passivity and non-flippedness, OR of every other bit, on top of the
accumulator. -/
theorem rtpBundleElts_spec :
    ∀ (l : List (String × Bool × FTy)) (acc : RTP),
      rtpBundleElts l acc =
        ⟨acc.isPassive &&
           l.all (fun e => (getRecursiveTypeProperties e.2.2).isPassive && !e.2.1),
         acc.containsReference ||
           l.any (fun e => (getRecursiveTypeProperties e.2.2).containsReference),
         acc.containsAnalog ||
           l.any (fun e => (getRecursiveTypeProperties e.2.2).containsAnalog),
         acc.containsConst ||
           l.any (fun e => (getRecursiveTypeProperties e.2.2).containsConst),
         acc.containsTypeAlias ||
           l.any (fun e => (getRecursiveTypeProperties e.2.2).containsTypeAlias),
         acc.hasUninferredWidth ||
           l.any (fun e => (getRecursiveTypeProperties e.2.2).hasUninferredWidth),
         acc.hasUninferredReset ||
           l.any (fun e => (getRecursiveTypeProperties e.2.2).hasUninferredReset)⟩ := by
  intro l
  induction l with
  | nil => intro acc; simp [rtpBundleElts]
  | cons e r ih =>
      intro acc
      obtain ⟨n, f, t⟩ := e
      simp [rtpBundleElts, ih, Bool.and_assoc, Bool.or_assoc]

/-- The enum-storage property fold, characterized: the element bits are
OR-folded for containsAnalog, containsConst, containsTypeAlias and
hasUninferredWidth only; the accumulator containsReference and
hasUninferredReset come through untouched. -/
theorem rtpEnumElts_spec :
    ∀ (l : List (String × FTy)) (acc : RTP),
      rtpEnumElts l acc =
        ⟨acc.isPassive && l.all (fun e => (getRecursiveTypeProperties e.2).isPassive),
         acc.containsReference,
         acc.containsAnalog ||
           l.any (fun e => (getRecursiveTypeProperties e.2).containsAnalog),
         acc.containsConst ||
           l.any (fun e => (getRecursiveTypeProperties e.2).containsConst),
         acc.containsTypeAlias ||
           l.any (fun e => (getRecursiveTypeProperties e.2).containsTypeAlias),
         acc.hasUninferredWidth ||
           l.any (fun e => (getRecursiveTypeProperties e.2).hasUninferredWidth),
         acc.hasUninferredReset⟩ := by
  intro l
  induction l with
  | nil => intro acc; simp [rtpEnumElts]
  | cons e r ih =>
      intro acc
      obtain ⟨n, t⟩ := e
      simp [rtpEnumElts, ih, Bool.and_assoc, Bool.or_assoc]

/-- areTypesEquivalent on two bundles: the arity check and the element
loop under the accumulated const contexts. -/
theorem eqv_bundle_eq :
    ∀ (dE sE : List (String × Bool × FTy)) (dc sc dOC sOC w : Bool),
      areTypesEquivalent (.bundle dE dc) (.bundle sE sc) dOC sOC w =
        (decide (dE.length = sE.length) &&
          bundleEltsEquivalent dE sE (dOC || dc) (sOC || sc) w) := by
  intro dE sE dc sc dOC sOC w
  rw [areTypesEquivalent]
  simp [isBaseTy, isConstTy, asVector, asBundle, unalias]

/-- areTypesEquivalent on two enums: the arity check and the element loop
under the accumulated const contexts; the requireSameWidths argument is
discarded (the loop hard-codes true). -/
theorem eqv_enum_eq :
    ∀ (dE sE : List (String × FTy)) (dc sc dOC sOC w : Bool),
      areTypesEquivalent (.fenum dE dc) (.fenum sE sc) dOC sOC w =
        (decide (dE.length = sE.length) &&
          enumEltsEquivalent dE sE (dOC || dc) (sOC || sc)) := by
  intro dE sE dc sc dOC sOC w
  rw [areTypesEquivalent]
  simp [isBaseTy, isConstTy, asVector, asBundle, asEnum, unalias]

/-- areTypesWeaklyEquivalent on two bundles reduces to the dest-element
loop, which receives the ORIGINAL outer const flags: the bundles own
const flags are dropped on the floor. -/
theorem weakEq_bundle_eq :
    ∀ (dE sE : List (String × Bool × FTy)) (dc sc df sf dOC sOC : Bool),
      areTypesWeaklyEquivalent (.bundle dE dc) (.bundle sE sc) df sf dOC sOC =
        weakBundleElts dE sE df sf dOC sOC := by
  intro dE sE dc sc df sf dOC sOC
  rw [areTypesWeaklyEquivalent]
  simp [isBaseTy, isConstTy, asVector, asBundle, unalias]

/-! Claim theorems. -/

/-- C1, counterexample: the spec claims every recursive property bit
other than isPassive — in particular hasUninferredReset — is the OR of
the corresponding bits of all immediate children for every aggregate.
For an enum whose single element has type Reset the child has
hasUninferredReset = true, yet the enum storage constructor leaves the
enum bit false: FEnumTypeStorage never ORs hasUninferredReset (or
containsReference) of its elements. -/
theorem C1_counterexample :
    (getRecursiveTypeProperties (.fenum [("a", .reset false)] false)).hasUninferredReset
        = false
    ∧ (getRecursiveTypeProperties (.reset false)).hasUninferredReset = true := by
  constructor
  · simp [getRecursiveTypeProperties, rtpEnumElts]
  · simp [getRecursiveTypeProperties]

/-- C1, amended: for bundles, vectors, open bundles and open vectors
every recursive property bit other than isPassive is the OR of the
corresponding bits of the immediate children (a vector has its element
type as its one child), with the aggregate const flag OR-ed into
containsConst.  For enums this holds for containsAnalog, containsConst,
containsTypeAlias and hasUninferredWidth, while an enum never propagates
containsReference or hasUninferredReset: those bits are always false. -/
theorem C1_recursive_props_or :
    (∀ (l : List (String × Bool × FTy)) (c : Bool),
       getRecursiveTypeProperties (.bundle l c) =
         ⟨l.all (fun e => (getRecursiveTypeProperties e.2.2).isPassive && !e.2.1),
          l.any (fun e => (getRecursiveTypeProperties e.2.2).containsReference),
          l.any (fun e => (getRecursiveTypeProperties e.2.2).containsAnalog),
          c || l.any (fun e => (getRecursiveTypeProperties e.2.2).containsConst),
          l.any (fun e => (getRecursiveTypeProperties e.2.2).containsTypeAlias),
          l.any (fun e => (getRecursiveTypeProperties e.2.2).hasUninferredWidth),
          l.any (fun e => (getRecursiveTypeProperties e.2.2).hasUninferredReset)⟩)
    ∧ (∀ (l : List (String × Bool × FTy)) (c : Bool),
       getRecursiveTypeProperties (.openBundle l c) =
         ⟨l.all (fun e => (getRecursiveTypeProperties e.2.2).isPassive && !e.2.1),
          l.any (fun e => (getRecursiveTypeProperties e.2.2).containsReference),
          l.any (fun e => (getRecursiveTypeProperties e.2.2).containsAnalog),
          c || l.any (fun e => (getRecursiveTypeProperties e.2.2).containsConst),
          l.any (fun e => (getRecursiveTypeProperties e.2.2).containsTypeAlias),
          l.any (fun e => (getRecursiveTypeProperties e.2.2).hasUninferredWidth),
          l.any (fun e => (getRecursiveTypeProperties e.2.2).hasUninferredReset)⟩)
    ∧ (∀ (t : FTy) (n : Nat) (c : Bool),
       getRecursiveTypeProperties (.vector t n c) =
         ⟨(getRecursiveTypeProperties t).isPassive,
          (getRecursiveTypeProperties t).containsReference,
          (getRecursiveTypeProperties t).containsAnalog,
          (getRecursiveTypeProperties t).containsConst || c,
          (getRecursiveTypeProperties t).containsTypeAlias,
          (getRecursiveTypeProperties t).hasUninferredWidth,
          (getRecursiveTypeProperties t).hasUninferredReset⟩)
    ∧ (∀ (t : FTy) (n : Nat) (c : Bool),
       getRecursiveTypeProperties (.openVector t n c) =
         ⟨(getRecursiveTypeProperties t).isPassive,
          (getRecursiveTypeProperties t).containsReference,
          (getRecursiveTypeProperties t).containsAnalog,
          (getRecursiveTypeProperties t).containsConst || c,
          (getRecursiveTypeProperties t).containsTypeAlias,
          (getRecursiveTypeProperties t).hasUninferredWidth,
          (getRecursiveTypeProperties t).hasUninferredReset⟩)
    ∧ (∀ (l : List (String × FTy)) (c : Bool),
       getRecursiveTypeProperties (.fenum l c) =
         ⟨l.all (fun e => (getRecursiveTypeProperties e.2).isPassive),
          false,
          l.any (fun e => (getRecursiveTypeProperties e.2).containsAnalog),
          c || l.any (fun e => (getRecursiveTypeProperties e.2).containsConst),
          l.any (fun e => (getRecursiveTypeProperties e.2).containsTypeAlias),
          l.any (fun e => (getRecursiveTypeProperties e.2).hasUninferredWidth),
          false⟩) := by
  refine ⟨?_, ?_, ?_, ?_, ?_⟩ <;> intros <;>
    simp [getRecursiveTypeProperties, rtpBundleElts_spec, rtpEnumElts_spec]

/-- C2, counterexample: the claim says a flipped non-const destination
leaf inside a const source bundle context cannot be weakly equivalent
(the enclosing const must be imposed on the leaf), so this instance — a
non-const bundle with a flipped non-const UInt leaf as dest against the
same bundle marked const as src — would have to answer false; the code
answers true because the bundle branch forwards only the original outer
flags. -/
theorem C2_counterexample :
    areTypesWeaklyEquivalent (.bundle [("a", true, .uint 1 false)] false)
      (.bundle [("a", true, .uint 1 false)] true) false false false false = true := by
  simp [areTypesWeaklyEquivalent, weakBundleElts, asVector, asBundle, unalias,
    isBaseTy, isConstTy, isResetVariant, isResetType, getWidthlessType,
    getConstType, tyEq, List.find?]

/-- C2, amended: in areTypesWeaklyEquivalent the const-ness of an
enclosing bundle is NOT imposed on the recursive comparison of its
elements: the bundle branch passes the original outer const flags
through unchanged, so the result never depends on the two bundles own
const flags (only explicitly passed outer flags and the leaves own
const-ness matter; among the aggregates only vectors fold their
accumulated const into the context). -/
theorem C2_weak_const_not_imposed :
    ∀ (dE sE : List (String × Bool × FTy)) (dc dc2 sc sc2 df sf dOC sOC : Bool),
      areTypesWeaklyEquivalent (.bundle dE dc) (.bundle sE sc) df sf dOC sOC =
      areTypesWeaklyEquivalent (.bundle dE dc2) (.bundle sE sc2) df sf dOC sOC := by
  intros
  rw [weakEq_bundle_eq, weakEq_bundle_eq]

/-- enumEltsEquivalent forces the variant names to agree in order. -/
theorem enumElts_names :
    ∀ (dE sE : List (String × FTy)) (dC sC : Bool),
      enumEltsEquivalent dE sE dC sC = true →
      dE.map Prod.fst = sE.map Prod.fst := by
  intro dE
  induction dE with
  | nil => intro sE dC sC h; cases sE <;> simp_all [enumEltsEquivalent]
  | cons d dr ih =>
      intro sE dC sC h
      obtain ⟨dn, dt⟩ := d
      cases sE with
      | nil => simp [enumEltsEquivalent] at h
      | cons x sr =>
          obtain ⟨sn, st⟩ := x
          simp only [enumEltsEquivalent, Bool.and_eq_true, decide_eq_true_eq] at h
          obtain ⟨⟨h1, _⟩, h3⟩ := h
          simp [h1, ih sr _ _ h3]

/-- C3: enum equivalence requires equal element counts and equal names
in order, and compares element types with widths required to match
exactly no matter what requireSameWidths the caller passed: the result
is independent of that flag, a name or arity mismatch refutes it, and
the concrete pair Enum<a:UInt<4>, b:UInt<8>> versus
Enum<a:UInt<4>, b:UInt<4>> is rejected even with
requireSameWidths = false. -/
theorem C3_enum_equivalence :
    (∀ (dE sE : List (String × FTy)) (dc sc dOC sOC w w2 : Bool),
       areTypesEquivalent (.fenum dE dc) (.fenum sE sc) dOC sOC w =
       areTypesEquivalent (.fenum dE dc) (.fenum sE sc) dOC sOC w2)
    ∧ (∀ (dE sE : List (String × FTy)) (dc sc dOC sOC w : Bool),
       dE.map Prod.fst ≠ sE.map Prod.fst →
       areTypesEquivalent (.fenum dE dc) (.fenum sE sc) dOC sOC w = false)
    ∧ areTypesEquivalent (.fenum [("a", .uint 4 false), ("b", .uint 8 false)] false)
        (.fenum [("a", .uint 4 false), ("b", .uint 4 false)] false) false false false
        = false := by
  refine ⟨?_, ?_, ?_⟩
  · intro dE sE dc sc dOC sOC w w2
    rw [eqv_enum_eq, eqv_enum_eq]
  · intro dE sE dc sc dOC sOC w hne
    rw [eqv_enum_eq]
    cases helts : enumEltsEquivalent dE sE (dOC || dc) (sOC || sc) with
    | false => simp
    | true => exact absurd (enumElts_names _ _ _ _ helts) hne
  · simp [areTypesEquivalent, enumEltsEquivalent, asVector, asBundle, asEnum,
      unalias, isBaseTy, isConstTy, isResetVariant, isResetType,
      getBitWidthOrSentinel, getWidthlessType, getConstType, tyEq]

/-- C3, witness: the name-mismatch conjunct applied to a concrete pair of
enums of different arity. -/
theorem C3_enum_equivalence_witness :
    areTypesEquivalent (.fenum [("a", .uint 1 false)] false) (.fenum [] false)
      false false false = false :=
  C3_enum_equivalence.2.1 [("a", .uint 1 false)] [] false false false false false
    (by simp)

/-- C4, counterexample: the claim says casting a const bundle source to
the non-const bundle destination is rejected; the code accepts it —
const-ness may be dropped by a const cast, only adding const
(destIsConst when the source is not) is rejected. -/
theorem C4_counterexample :
    areTypesConstCastable (.bundle [("a", false, .uint 8 false)] false)
      (.bundle [("a", false, .uint 8 false)] true) false = true := by
  simp [areTypesConstCastable, ccBElts, asVector, asBundle, unalias, tyEq,
    tyEqBElts, isBaseTy, isPassive, getRecursiveTypeProperties, rtpBundleElts,
    isConstTy, getConstType]

/-- C4, amended: areTypesConstCastable answers true for identical types;
non-identical operands must both be passive; and a const destination is
rejected whenever the source — its outer const context included — is not
const.  Concretely, casting the const Bundle<a: UInt<8>> source to the
non-const bundle destination is ACCEPTED (dropping const is fine), while
the const bundle destination rejects the non-const source. -/
theorem C4_const_castable :
    (∀ (d s : FTy) (oc : Bool), d = s → areTypesConstCastable d s oc = true)
    ∧ (∀ (d s : FTy) (oc : Bool), d ≠ s →
        (isPassive d = false ∨ isPassive s = false) →
        areTypesConstCastable d s oc = false)
    ∧ (∀ (d s : FTy), isConstTy d = true → isConstTy s = false →
        areTypesConstCastable d s false = false)
    ∧ areTypesConstCastable (.bundle [("a", false, .uint 8 false)] true)
        (.bundle [("a", false, .uint 8 false)] false) false = false := by
  refine ⟨?_, ?_, ?_, ?_⟩
  · intro d s oc h
    subst h
    rw [areTypesConstCastable]
    simp [tyEq_refl]
  · intro d s oc hne hnp
    have hts : tyEq d s = false := by
      cases hts2 : tyEq d s
      · rfl
      · exact absurd (tyEq_sound _ _ hts2) hne
    rw [areTypesConstCastable]
    rcases hnp with hp | hp <;> simp [hts, hp]
  · intro d s hd hs
    have hts : tyEq d s = false := by
      cases hts2 : tyEq d s
      · rfl
      · have h := tyEq_sound _ _ hts2
        subst h
        rw [hd] at hs
        cases hs
    rw [areTypesConstCastable]
    simp [hts, hd, hs]
  · simp [areTypesConstCastable, ccBElts, asVector, asBundle, unalias, tyEq,
      tyEqBElts, isBaseTy, isPassive, getRecursiveTypeProperties, rtpBundleElts,
      isConstTy, getConstType]

/-- C4, witness: the three hypothesized conjuncts applied at concrete
inputs — an identical pair, a non-passive non-identical pair, and a
const destination fed a non-const source. -/
theorem C4_const_castable_witness :
    areTypesConstCastable (.uint 1 false) (.uint 1 false) false = true
    ∧ areTypesConstCastable (.bundle [("a", true, .uint 1 false)] false)
        (.uint 1 false) false = false
    ∧ areTypesConstCastable (.uint 1 true) (.uint 1 false) false = false :=
  ⟨C4_const_castable.1 _ _ false rfl,
   C4_const_castable.2.1 _ _ false (by simp)
     (Or.inl (by simp [isPassive, getRecursiveTypeProperties, rtpBundleElts])),
   C4_const_castable.2.2.1 _ _ (by simp [isConstTy]) (by simp [isConstTy])⟩

mutual
/-- Well-formed base types: the values of the FIRRTLBaseType hierarchy
that the C++ type store can actually intern — ground types, and
bundles / vectors / enums / aliases whose children are themselves
well-formed base types.  Open aggregates, references and property types
are not base types. -/
def isBaseWF : FTy → Bool
  | .clock _ | .reset _ | .asyncReset _ => true
  | .sint _ _ | .uint _ _ | .analog _ _ => true
  | .bundle elts _ => isBaseWFB elts
  | .vector e _ _ => isBaseWF e
  | .fenum elts _ => isBaseWFE elts
  | .alias _ inner => isBaseWF inner
  | _ => false

/-- Well-formedness of bundle element lists. -/
def isBaseWFB : List (String × Bool × FTy) → Bool
  | [] => true
  | (_, _, t) :: r => isBaseWF t && isBaseWFB r

/-- Well-formedness of enum element lists. -/
def isBaseWFE : List (String × FTy) → Bool
  | [] => true
  | (_, t) :: r => isBaseWF t && isBaseWFE r
end

mutual
/-- True when no enum variant occurs anywhere in a base type; exactly the
domain on which the getMaskType switch has a case for every subterm. -/
def enumFree : FTy → Bool
  | .clock _ | .reset _ | .asyncReset _ => true
  | .sint _ _ | .uint _ _ | .analog _ _ => true
  | .bundle elts _ => enumFreeB elts
  | .vector e _ _ => enumFree e
  | .alias _ inner => enumFree inner
  | _ => false

/-- enumFree on bundle element lists. -/
def enumFreeB : List (String × Bool × FTy) → Bool
  | [] => true
  | (_, _, t) :: r => enumFree t && enumFreeB r
end

mutual
/-- The shape the amended mask claim predicts for getMaskType on its
domain: every ground leaf becomes a 1-bit unsigned integer with the same
const flag; bundles keep names and const but have every flip flag
cleared; vectors keep length and const; aliases contribute the shape of
their inner type. -/
def maskShape : FTy → FTy
  | .clock c => .uint 1 c
  | .reset c => .uint 1 c
  | .asyncReset c => .uint 1 c
  | .sint _ c => .uint 1 c
  | .uint _ c => .uint 1 c
  | .analog _ c => .uint 1 c
  | .bundle elts c => .bundle (maskShapeB elts) c
  | .vector e n c => .vector (maskShape e) n c
  | .alias _ inner => maskShape inner
  | t => t

/-- maskShape on bundle element lists (flip cleared). -/
def maskShapeB : List (String × Bool × FTy) → List (String × Bool × FTy)
  | [] => []
  | (n, _, t) :: r => (n, false, maskShape t) :: maskShapeB r
end

mutual
theorem maskTotal :
    ∀ t : FTy, isBaseWF t = true → enumFree t = true →
      getMaskType t = some (maskShape t)
  | .clock c => by simp [getMaskType, maskShape]
  | .reset c => by simp [getMaskType, maskShape]
  | .asyncReset c => by simp [getMaskType, maskShape]
  | .sint _ c => by simp [getMaskType, maskShape]
  | .uint _ c => by simp [getMaskType, maskShape]
  | .analog _ c => by simp [getMaskType, maskShape]
  | .bundle elts c => by
      intro h1 h2
      simp only [isBaseWF] at h1
      simp only [enumFree] at h2
      simp [getMaskType, maskShape, maskTotalB elts h1 h2]
  | .vector e n c => by
      intro h1 h2
      simp only [isBaseWF] at h1
      simp only [enumFree] at h2
      simp [getMaskType, maskShape, maskTotal e h1 h2]
  | .fenum elts c => by
      intro _ h2
      simp [enumFree] at h2
  | .alias _ inner => by
      intro h1 h2
      simp only [isBaseWF] at h1
      simp only [enumFree] at h2
      simp [getMaskType, maskShape, maskTotal inner h1 h2]
  | .ref _ _ => by intro h1; simp [isBaseWF] at h1
  | .openBundle _ _ => by intro h1; simp [isBaseWF] at h1
  | .openVector _ _ _ => by intro h1; simp [isBaseWF] at h1
  | .stringTy => by intro h1; simp [isBaseWF] at h1
  | .bigIntTy => by intro h1; simp [isBaseWF] at h1

theorem maskTotalB :
    ∀ l : List (String × Bool × FTy), isBaseWFB l = true → enumFreeB l = true →
      maskBElts l = some (maskShapeB l)
  | [] => by simp [maskBElts, maskShapeB]
  | (n, f, t) :: r => by
      intro h1 h2
      simp only [isBaseWFB, Bool.and_eq_true] at h1
      simp only [enumFreeB, Bool.and_eq_true] at h2
      simp [maskBElts, maskShapeB, maskTotal t h1.1 h2.1, maskTotalB r h1.2 h2.2]
end

/-- C5, counterexample: getMaskType is not total over base types — the
switch has no FEnumType case, so this well-formed base enum reaches the
llvm_unreachable default (modelled none); and the mask of a bundle with a
flipped element does not keep that flip flag, the element comes back
non-flipped.  The flip-clearing is recorded in full by the amended
theorem. -/
theorem C5_counterexample :
    isBaseWF (.fenum [("a", .uint 1 false)] false) = true
    ∧ getMaskType (.fenum [("a", .uint 1 false)] false) = none
    ∧ getMaskType (.bundle [("a", true, .uint 8 false)] false)
        = some (.bundle [("a", false, .uint 1 false)] false) := by
  refine ⟨?_, ?_, ?_⟩
  · simp [isBaseWF, isBaseWFE]
  · simp [getMaskType]
  · simp [getMaskType, maskBElts]

/-- C5, amended: getMaskType is defined exactly on enum-free base types
(an enum anywhere reaches an unreachable default), and there it produces
maskShape: every ground leaf becomes a 1-bit unsigned integer preserving
that leaf const flag, aggregates keep element names, vector lengths and
aggregate const flags, but every bundle-element flip flag is cleared
(the literal false with a FIXME in the source) rather than preserved. -/
theorem C5_mask (t : FTy) (h1 : isBaseWF t = true) (h2 : enumFree t = true) :
    getMaskType t = some (maskShape t) :=
  maskTotal t h1 h2

/-- C5, witness: the amended mask theorem applied to a bundle with a
flipped element. -/
theorem C5_mask_witness :
    getMaskType (.bundle [("a", true, .uint 8 false)] false)
      = some (.bundle [("a", false, .uint 1 false)] false) := by
  have h := C5_mask (.bundle [("a", true, .uint 8 false)] false)
    (by simp [isBaseWF, isBaseWFB]) (by simp [enumFree, enumFreeB])
  simpa [maskShape, maskShapeB] using h

/-- A bundle element type is smaller than the whole element list. -/
theorem sizeOf_belt_lt {l : List (String × Bool × FTy)} {e : String × Bool × FTy}
    (h : e ∈ l) : sizeOf e.2.2 < sizeOf l := by
  obtain ⟨a, b, t⟩ := e
  have := List.sizeOf_lt_of_mem h
  simp at this ⊢
  omega

/-- An enum element type is smaller than the whole element list. -/
theorem sizeOf_eelt_lt {l : List (String × FTy)} {e : String × FTy}
    (h : e ∈ l) : sizeOf e.2 < sizeOf l := by
  obtain ⟨a, t⟩ := e
  have := List.sizeOf_lt_of_mem h
  simp at this ⊢
  omega

/-- Reflexivity of the bundle element loop, given elementwise
reflexivity. -/
theorem bundleEltsEqv_refl :
    ∀ (l : List (String × Bool × FTy)) (C w : Bool),
      (∀ e ∈ l, ∀ c2 w2 : Bool, areTypesEquivalent e.2.2 e.2.2 c2 c2 w2 = true) →
      bundleEltsEquivalent l l C C w = true := by
  intro l
  induction l with
  | nil => intro C w _; simp [bundleEltsEquivalent]
  | cons e r ih =>
      intro C w h
      obtain ⟨n, f, t⟩ := e
      have ht := h (n, f, t) (List.mem_cons_self _ _) C w
      have hr := ih C w (fun e he => h e (List.mem_cons_of_mem _ he))
      cases f <;> simp [bundleEltsEquivalent, ht, hr]

/-- Reflexivity of the enum element loop, given elementwise
reflexivity. -/
theorem enumEltsEqv_refl :
    ∀ (l : List (String × FTy)) (C : Bool),
      (∀ e ∈ l, ∀ c2 w2 : Bool, areTypesEquivalent e.2 e.2 c2 c2 w2 = true) →
      enumEltsEquivalent l l C C = true := by
  intro l
  induction l with
  | nil => intro C _; simp [enumEltsEquivalent]
  | cons e r ih =>
      intro C h
      obtain ⟨n, t⟩ := e
      have ht := h (n, t) (List.mem_cons_self _ _) C true
      have hr := ih C (fun e he => h e (List.mem_cons_of_mem _ he))
      simp [enumEltsEquivalent, ht, hr]

/-- C6: areTypesEquivalent is reflexive — every FIRRTL type is
equivalent to itself, for equal outer-const flags on both sides and for
either value of requireSameWidths. -/
theorem C6_eqv_refl : ∀ (t : FTy) (c w : Bool), areTypesEquivalent t t c c w = true := by
  refine fty_size_ind ?_
  intro t IH c w
  rw [areTypesEquivalent]
  by_cases hb : isBaseTy t = true
  case neg =>
    rw [Bool.not_eq_true] at hb
    simp [hb, tyEq_refl]
  case pos =>
    simp only [hb, Bool.and_self, Bool.not_true]
    cases hv : asVector t with
    | some v =>
        obtain ⟨de, dn, dc⟩ := v
        simp [hv, IH de (asVector_sizeOf hv)]
    | none =>
        cases hbd : asBundle t with
        | some b =>
            obtain ⟨dE, bc⟩ := b
            have hElts : ∀ e ∈ dE, ∀ c2 w2 : Bool,
                areTypesEquivalent e.2.2 e.2.2 c2 c2 w2 = true := by
              intro e he c2 w2
              have h1 : sizeOf e.2.2 < sizeOf dE := sizeOf_belt_lt he
              have h2 : sizeOf dE < sizeOf t := asBundle_sizeOf hbd
              exact IH e.2.2 (by omega) c2 w2
            simp [hv, hbd, bundleEltsEqv_refl dE _ w hElts]
        | none =>
            cases hen : asEnum t with
            | some v =>
                obtain ⟨dE, ec⟩ := v
                have hElts : ∀ e ∈ dE, ∀ c2 w2 : Bool,
                    areTypesEquivalent e.2 e.2 c2 c2 w2 = true := by
                  intro e he c2 w2
                  have h1 : sizeOf e.2 < sizeOf dE := sizeOf_eelt_lt he
                  have h2 : sizeOf dE < sizeOf t := asEnum_sizeOf hen
                  exact IH e.2 (by omega) c2 w2
                simp [hv, hbd, hen, enumEltsEqv_refl dE _ hElts]
            | none =>
                simp only [hv, hbd, hen]
                have htaut : ∀ x y : Bool,
                    x = false ∧ y = false ∨ x = true ∨ y = true := by decide
                by_cases hr : isResetVariant t = true
                · simp [hr, isResetType_of_variant t hr, Bool.and_not_self]
                  exact htaut c (isConstTy t)
                · rw [Bool.not_eq_true] at hr
                  by_cases hw : (!w || decide (getBitWidthOrSentinel t = -1)) = true
                  · have hw2 : (!w ||
                        decide (getBitWidthOrSentinel (getWidthlessType t) = -1)) = true := by
                      rcases Bool.or_eq_true_iff.mp hw with h | h
                      · simp [h]
                      · simp [bw_widthless_of_unknown t (of_decide_eq_true h)]
                    simp [hr, hw, hw2, Bool.and_not_self, tyEq_refl]
                    exact htaut c (isConstTy t)
                  · rw [Bool.not_eq_true] at hw
                    simp [hr, hw, Bool.and_not_self, tyEq_refl]
                    exact htaut c (isConstTy t)

/-- unalias never returns an alias. -/
theorem unalias_ne_alias : ∀ (t : FTy) (nm : String) (i : FTy), unalias t ≠ .alias nm i
  | .alias _ x, nm, i => by simpa [unalias] using unalias_ne_alias x nm i
  | .clock _, _, _ => by simp [unalias]
  | .reset _, _, _ => by simp [unalias]
  | .asyncReset _, _, _ => by simp [unalias]
  | .sint _ _, _, _ => by simp [unalias]
  | .uint _ _, _, _ => by simp [unalias]
  | .analog _ _, _, _ => by simp [unalias]
  | .bundle _ _, _, _ => by simp [unalias]
  | .vector _ _ _, _, _ => by simp [unalias]
  | .fenum _ _, _, _ => by simp [unalias]
  | .ref _ _, _, _ => by simp [unalias]
  | .openBundle _ _, _, _ => by simp [unalias]
  | .openVector _ _ _, _, _ => by simp [unalias]
  | .stringTy, _, _ => by simp [unalias]
  | .bigIntTy, _, _ => by simp [unalias]

/-- The bundle rebuild loop of getPassiveType is idempotent given
elementwise idempotence. -/
theorem passiveBElts_idem :
    ∀ l : List (String × Bool × FTy),
      (∀ e ∈ l, getPassiveType (getPassiveType e.2.2) = getPassiveType e.2.2) →
      passiveBElts (passiveBElts l) = passiveBElts l := by
  intro l
  induction l with
  | nil => intro _; simp [passiveBElts]
  | cons e r ih =>
      intro h
      obtain ⟨n, f, t⟩ := e
      have ht := h (n, f, t) (List.mem_cons_self _ _)
      have hr := ih (fun e he => h e (List.mem_cons_of_mem _ he))
      simp [passiveBElts] at ht ⊢
      exact ⟨ht, hr⟩

/-- Member bound transported through unalias, bundle shape. -/
theorem belt_size_lt_of_unalias {t : FTy} {elts : List (String × Bool × FTy)}
    {c : Bool} {e : String × Bool × FTy} (hu : unalias t = .bundle elts c)
    (he : e ∈ elts) : sizeOf e.2.2 < sizeOf t := by
  have h1 : sizeOf e.2.2 < sizeOf elts := sizeOf_belt_lt he
  have h2 := sizeOf_unalias_le t
  rw [hu] at h2
  simp at h2
  omega

/-- Member bound transported through unalias, enum shape. -/
theorem eelt_size_lt_of_unalias {t : FTy} {elts : List (String × FTy)}
    {c : Bool} {e : String × FTy} (hu : unalias t = .fenum elts c)
    (he : e ∈ elts) : sizeOf e.2 < sizeOf t := by
  have h1 : sizeOf e.2 < sizeOf elts := sizeOf_eelt_lt he
  have h2 := sizeOf_unalias_le t
  rw [hu] at h2
  simp at h2
  omega

theorem passive_idem : ∀ t : FTy, getPassiveType (getPassiveType t) = getPassiveType t := by
  refine fty_size_ind ?_
  intro t IH
  cases hu : unalias t with
  | bundle elts c =>
      have hElts : ∀ e ∈ elts,
          getPassiveType (getPassiveType e.2.2) = getPassiveType e.2.2 :=
        fun e he => IH e.2.2 (belt_size_lt_of_unalias hu he)
      by_cases hp : (getRecursiveTypeProperties (.bundle elts c)).isPassive = true
      · have h1 : getPassiveType t = .bundle elts c := by
          rw [getPassiveType, hu]
          simp [hp]
        have h2 : getPassiveType (.bundle elts c) = .bundle elts c := by
          rw [getPassiveType]
          simp [unalias, hp]
        rw [h1, h2]
      · rw [Bool.not_eq_true] at hp
        have h1 : getPassiveType t = .bundle (passiveBElts elts) c := by
          rw [getPassiveType, hu]
          simp [hp]
        rw [h1, getPassiveType]
        simp only [unalias]
        split
        · rfl
        · simp [passiveBElts_idem elts hElts]
  | vector e n c =>
      have hse : sizeOf e < sizeOf t := by
        have h2 := sizeOf_unalias_le t
        rw [hu] at h2
        simp at h2
        omega
      by_cases hp : (getRecursiveTypeProperties e).isPassive = true
      · have h1 : getPassiveType t = .vector e n c := by
          rw [getPassiveType, hu]
          simp [hp]
        have h2 : getPassiveType (.vector e n c) = .vector e n c := by
          rw [getPassiveType]
          simp [unalias, hp]
        rw [h1, h2]
      · rw [Bool.not_eq_true] at hp
        have h1 : getPassiveType t = .vector (getPassiveType e) n c := by
          rw [getPassiveType, hu]
          simp [hp]
        rw [h1, getPassiveType]
        simp only [unalias]
        split
        · rfl
        · simp [IH e hse]
  | «alias» nm i => exact absurd hu (unalias_ne_alias t nm i)
  | clock c =>
      have h : getPassiveType t = t := by rw [getPassiveType, hu]
      rw [h]
      exact h
  | reset c =>
      have h : getPassiveType t = t := by rw [getPassiveType, hu]
      rw [h]
      exact h
  | asyncReset c =>
      have h : getPassiveType t = t := by rw [getPassiveType, hu]
      rw [h]
      exact h
  | sint w c =>
      have h : getPassiveType t = t := by rw [getPassiveType, hu]
      rw [h]
      exact h
  | uint w c =>
      have h : getPassiveType t = t := by rw [getPassiveType, hu]
      rw [h]
      exact h
  | analog w c =>
      have h : getPassiveType t = t := by rw [getPassiveType, hu]
      rw [h]
      exact h
  | fenum elts c =>
      have h : getPassiveType t = t := by rw [getPassiveType, hu]
      rw [h]
      exact h
  | ref i f =>
      have h : getPassiveType t = t := by rw [getPassiveType, hu]
      rw [h]
      exact h
  | openBundle elts c =>
      have h : getPassiveType t = t := by rw [getPassiveType, hu]
      rw [h]
      exact h
  | openVector e n c =>
      have h : getPassiveType t = t := by rw [getPassiveType, hu]
      rw [h]
      exact h
  | stringTy =>
      have h : getPassiveType t = t := by rw [getPassiveType, hu]
      rw [h]
      exact h
  | bigIntTy =>
      have h : getPassiveType t = t := by rw [getPassiveType, hu]
      rw [h]
      exact h

/-- The bundle rebuild loop of getAllConstDroppedType is idempotent given
elementwise idempotence. -/
theorem acdBElts_idem :
    ∀ l : List (String × Bool × FTy),
      (∀ e ∈ l, getAllConstDroppedType (getAllConstDroppedType e.2.2) =
        getAllConstDroppedType e.2.2) →
      acdBElts (acdBElts l) = acdBElts l := by
  intro l
  induction l with
  | nil => intro _; simp [acdBElts]
  | cons e r ih =>
      intro h
      obtain ⟨n, f, t⟩ := e
      have ht := h (n, f, t) (List.mem_cons_self _ _)
      have hr := ih (fun e he => h e (List.mem_cons_of_mem _ he))
      simp [acdBElts] at ht ⊢
      exact ⟨ht, hr⟩

/-- The enum rebuild loop of getAllConstDroppedType is idempotent given
elementwise idempotence. -/
theorem acdEElts_idem :
    ∀ l : List (String × FTy),
      (∀ e ∈ l, getAllConstDroppedType (getAllConstDroppedType e.2) =
        getAllConstDroppedType e.2) →
      acdEElts (acdEElts l) = acdEElts l := by
  intro l
  induction l with
  | nil => intro _; simp [acdEElts]
  | cons e r ih =>
      intro h
      obtain ⟨n, t⟩ := e
      have ht := h (n, t) (List.mem_cons_self _ _)
      have hr := ih (fun e he => h e (List.mem_cons_of_mem _ he))
      simp [acdEElts] at ht ⊢
      exact ⟨ht, hr⟩

theorem acd_idem : ∀ t : FTy,
    getAllConstDroppedType (getAllConstDroppedType t) = getAllConstDroppedType t := by
  refine fty_size_ind ?_
  intro t IH
  cases hu : unalias t with
  | bundle elts c =>
      have hElts : ∀ e ∈ elts,
          getAllConstDroppedType (getAllConstDroppedType e.2.2) =
            getAllConstDroppedType e.2.2 :=
        fun e he => IH e.2.2 (belt_size_lt_of_unalias hu he)
      by_cases hc : (getRecursiveTypeProperties (.bundle elts c)).containsConst = true
      · have h1 : getAllConstDroppedType t = .bundle (acdBElts elts) false := by
          rw [getAllConstDroppedType, hu]
          simp [hc]
        rw [h1, getAllConstDroppedType]
        simp only [unalias]
        split
        · rfl
        · simp [acdBElts_idem elts hElts]
      · rw [Bool.not_eq_true] at hc
        have h1 : getAllConstDroppedType t = .bundle elts c := by
          rw [getAllConstDroppedType, hu]
          simp [hc]
        have h2 : getAllConstDroppedType (.bundle elts c) = .bundle elts c := by
          rw [getAllConstDroppedType]
          simp [unalias, hc]
        rw [h1, h2]
  | vector e n c =>
      have hse : sizeOf e < sizeOf t := by
        have h2 := sizeOf_unalias_le t
        rw [hu] at h2
        simp at h2
        omega
      by_cases hc : (getRecursiveTypeProperties (.vector e n c)).containsConst = true
      · have h1 : getAllConstDroppedType t = .vector (getAllConstDroppedType e) n false := by
          rw [getAllConstDroppedType, hu]
          simp [hc]
        rw [h1, getAllConstDroppedType]
        simp only [unalias]
        split
        · rfl
        · simp [IH e hse]
      · rw [Bool.not_eq_true] at hc
        have h1 : getAllConstDroppedType t = .vector e n c := by
          rw [getAllConstDroppedType, hu]
          simp [hc]
        have h2 : getAllConstDroppedType (.vector e n c) = .vector e n c := by
          rw [getAllConstDroppedType]
          simp [unalias, hc]
        rw [h1, h2]
  | fenum elts c =>
      have hElts : ∀ e ∈ elts,
          getAllConstDroppedType (getAllConstDroppedType e.2) =
            getAllConstDroppedType e.2 :=
        fun e he => IH e.2 (eelt_size_lt_of_unalias hu he)
      by_cases hc : (getRecursiveTypeProperties (.fenum elts c)).containsConst = true
      · have h1 : getAllConstDroppedType t = .fenum (acdEElts elts) false := by
          rw [getAllConstDroppedType, hu]
          simp [hc]
        rw [h1, getAllConstDroppedType]
        simp only [unalias]
        split
        · rfl
        · simp [acdEElts_idem elts hElts]
      · rw [Bool.not_eq_true] at hc
        have h1 : getAllConstDroppedType t = .fenum elts c := by
          rw [getAllConstDroppedType, hu]
          simp [hc]
        have h2 : getAllConstDroppedType (.fenum elts c) = .fenum elts c := by
          rw [getAllConstDroppedType]
          simp [unalias, hc]
        rw [h1, h2]
  | «alias» nm i => exact absurd hu (unalias_ne_alias t nm i)
  | clock c =>
      have h1 : getAllConstDroppedType t = .clock false := by rw [getAllConstDroppedType, hu]
      have h2 : getAllConstDroppedType (.clock false) = .clock false := by
        rw [getAllConstDroppedType]
        simp [unalias]
      rw [h1, h2]
  | reset c =>
      have h1 : getAllConstDroppedType t = .reset false := by rw [getAllConstDroppedType, hu]
      have h2 : getAllConstDroppedType (.reset false) = .reset false := by
        rw [getAllConstDroppedType]
        simp [unalias]
      rw [h1, h2]
  | asyncReset c =>
      have h1 : getAllConstDroppedType t = .asyncReset false := by
        rw [getAllConstDroppedType, hu]
      have h2 : getAllConstDroppedType (.asyncReset false) = .asyncReset false := by
        rw [getAllConstDroppedType]
        simp [unalias]
      rw [h1, h2]
  | sint w c =>
      have h1 : getAllConstDroppedType t = .sint w false := by rw [getAllConstDroppedType, hu]
      have h2 : getAllConstDroppedType (.sint w false) = .sint w false := by
        rw [getAllConstDroppedType]
        simp [unalias]
      rw [h1, h2]
  | uint w c =>
      have h1 : getAllConstDroppedType t = .uint w false := by rw [getAllConstDroppedType, hu]
      have h2 : getAllConstDroppedType (.uint w false) = .uint w false := by
        rw [getAllConstDroppedType]
        simp [unalias]
      rw [h1, h2]
  | analog w c =>
      have h1 : getAllConstDroppedType t = .analog w false := by
        rw [getAllConstDroppedType, hu]
      have h2 : getAllConstDroppedType (.analog w false) = .analog w false := by
        rw [getAllConstDroppedType]
        simp [unalias]
      rw [h1, h2]
  | ref i f =>
      have h : getAllConstDroppedType t = t := by rw [getAllConstDroppedType, hu]
      rw [h]
      exact h
  | openBundle elts c =>
      have h : getAllConstDroppedType t = t := by rw [getAllConstDroppedType, hu]
      rw [h]
      exact h
  | openVector e n c =>
      have h : getAllConstDroppedType t = t := by rw [getAllConstDroppedType, hu]
      rw [h]
      exact h
  | stringTy =>
      have h : getAllConstDroppedType t = t := by rw [getAllConstDroppedType, hu]
      rw [h]
      exact h
  | bigIntTy =>
      have h : getAllConstDroppedType t = t := by rw [getAllConstDroppedType, hu]
      rw [h]
      exact h

/-- C7: the passive transformer and the all-const-dropped transformer are
idempotent on every type. -/
theorem C7_idempotent : ∀ t : FTy,
    getPassiveType (getPassiveType t) = getPassiveType t
    ∧ getAllConstDroppedType (getAllConstDroppedType t) = getAllConstDroppedType t :=
  fun t => ⟨passive_idem t, acd_idem t⟩

/-- C8: field-ID round-trip and the OpenVectorType divergence.  For the
closed Vector<UInt<1>, 3> the concrete scenario of the claim holds:
maxFieldID is 3 and the sub-type at ID 2 is (UInt<1>, 0), and a nested
bundle example round-trips to (element type, 0) as well.  But for the
open vector OpenVector<UInt<1>, 3>, element index 2 carries field ID 3,
and getSubTypeByFieldID at 3 answers (UInt<1>, 2) — the ELEMENT INDEX as
the residual ID instead of the rebased 0 that the claim (and the
interface contract followed by every other aggregate) requires:
OpenVectorType::getSubTypeByFieldID returns getIndexForFieldID(fieldID)
as its second component. -/
theorem C8_field_id :
    getMaxFieldID (.vector (.uint 1 false) 3 false) = 3
    ∧ getSubTypeByFieldID (.vector (.uint 1 false) 3 false) 2 = (.uint 1 false, 0)
    ∧ getFieldID (.bundle [("a", false, .uint 1 false),
          ("b", false, .vector (.uint 1 false) 2 false)] false) 1 = 2
    ∧ getSubTypeByFieldID (.bundle [("a", false, .uint 1 false),
          ("b", false, .vector (.uint 1 false) 2 false)] false) 2
        = (.vector (.uint 1 false) 2 false, 0)
    ∧ getFieldID (.openVector (.uint 1 false) 3 false) 2 = 3
    ∧ getSubTypeByFieldID (.openVector (.uint 1 false) 3 false) 3
        = (.uint 1 false, 2) := by
  refine ⟨?_, ?_, ?_, ?_, ?_, ?_⟩ <;>
    simp [getMaxFieldID, getSubTypeByFieldID, getFieldID, bundleFieldIDList,
      indexForFieldID, bundleEltTy, bundleMaxAux, List.countP, List.countP.go]

/-- The dest-element loop of weak bundle equivalence answers true when
every dest element whose name is found in src recurses to true. -/
theorem weakBundleElts_all :
    ∀ (dE sE : List (String × Bool × FTy)) (df sf dOC sOC : Bool),
      (∀ p ∈ dE, ∀ q : String × Bool × FTy,
        sE.find? (fun e => e.1 == p.1) = some q →
        areTypesWeaklyEquivalent p.2.2 q.2.2 (df ^^ p.2.1) (sf ^^ q.2.1) dOC sOC
          = true) →
      weakBundleElts dE sE df sf dOC sOC = true := by
  intro dE
  induction dE with
  | nil => intro sE df sf dOC sOC _; rw [weakBundleElts]
  | cons d dr ih =>
      intro sE df sf dOC sOC h
      obtain ⟨dn, dflip, dt⟩ := d
      rw [weakBundleElts]
      have hr := ih sE df sf dOC sOC (fun p hp => h p (List.mem_cons_of_mem _ hp))
      cases hf : sE.find? (fun e => e.1 == dn) with
      | none => simp [hf, hr]
      | some q =>
          obtain ⟨qn, qflip, qt⟩ := q
          have hq := h (dn, dflip, dt) (List.mem_cons_self _ _) (qn, qflip, qt) hf
          simp [hf, hr, hq]

/-- C9: for bundles whose element names on one side form a subset of the
other side, weak equivalence holds whenever the common elements agree
(field names missing from one side are tolerated), while strict
equivalence on bundles of different arity is always false; concretely,
Bundle<a, b> versus Bundle<a> is weakly equivalent but not equivalent. -/
theorem C9_subset_bundles :
    (∀ (dE sE : List (String × Bool × FTy)) (dc sc dOC sOC w : Bool),
       dE.length ≠ sE.length →
       areTypesEquivalent (.bundle dE dc) (.bundle sE sc) dOC sOC w = false)
    ∧ (∀ (dE sE : List (String × Bool × FTy)) (dc sc df sf dOC sOC : Bool),
       (∀ p ∈ dE, ∀ q : String × Bool × FTy,
         sE.find? (fun e => e.1 == p.1) = some q →
         areTypesWeaklyEquivalent p.2.2 q.2.2 (df ^^ p.2.1) (sf ^^ q.2.1) dOC sOC
           = true) →
       areTypesWeaklyEquivalent (.bundle dE dc) (.bundle sE sc) df sf dOC sOC
         = true)
    ∧ areTypesWeaklyEquivalent
        (.bundle [("a", false, .uint 1 false), ("b", false, .uint 1 false)] false)
        (.bundle [("a", false, .uint 1 false)] false) false false false false = true
    ∧ areTypesEquivalent
        (.bundle [("a", false, .uint 1 false), ("b", false, .uint 1 false)] false)
        (.bundle [("a", false, .uint 1 false)] false) false false false = false := by
  refine ⟨?_, ?_, ?_, ?_⟩
  · intro dE sE dc sc dOC sOC w hne
    rw [eqv_bundle_eq]
    simp [hne]
  · intro dE sE dc sc df sf dOC sOC h
    rw [weakEq_bundle_eq]
    exact weakBundleElts_all dE sE df sf dOC sOC h
  · simp [areTypesWeaklyEquivalent, weakBundleElts, asVector, asBundle, unalias,
      isBaseTy, isConstTy, isResetVariant, isResetType, getWidthlessType,
      getConstType, tyEq, List.find?]
  · rw [eqv_bundle_eq]
    simp

/-- C9, witness: the arity-mismatch conjunct and the subset-tolerance
conjunct applied at concrete bundles (the src of the weak check is empty,
so every lookup misses and the agreement hypothesis is vacuous). -/
theorem C9_subset_bundles_witness :
    areTypesEquivalent (.bundle [] false)
        (.bundle [("a", false, .uint 1 false)] false) false false false = false
    ∧ areTypesWeaklyEquivalent (.bundle [("a", false, .uint 1 false)] false)
        (.bundle [] false) false false false false = true :=
  ⟨C9_subset_bundles.1 [] [("a", false, .uint 1 false)] false false false false
      false (by simp),
   C9_subset_bundles.2.1 [("a", false, .uint 1 false)] [] false false false false
      false false (by intro p hp q hq; simp [List.find?] at hq)⟩

/-- C10: the claim says getAnonymousType only removes alias wrappers and
otherwise changes nothing — in particular the anonymous form of a const
enum containing an alias would still be const, and the alias would be
gone.  The code disagrees twice on the failing input
const Enum<a: alias T = UInt<4>>: FEnumType::getAnonymousType rebuilds
with FEnumType::get(ctx, elements), whose isConst parameter defaults to
false, so the root const flag is dropped; and the element alias of a
ground type survives, because FIRRTLBaseType::getAnonymousType matches an
alias of a ground type with its ground-type case, which returns the
receiver — alias wrapper included.  The second conjunct shows the same
receiver-returning quirk at top level. -/
theorem C10_anonymous_enum :
    getAnonymousType (.fenum [("a", .alias "T" (.uint 4 false))] true)
      = .fenum [("a", .alias "T" (.uint 4 false))] false
    ∧ getAnonymousType (.alias "T" (.uint 4 false)) = .alias "T" (.uint 4 false) := by
  constructor
  · simp [getAnonymousType, anonEElts, getRecursiveTypeProperties, rtpEnumElts,
      unalias]
  · rw [getAnonymousType]
    simp [unalias]

end Firrtl
